import Mathlib

/-!
Shallow embedding of the LDB recordset decoder (src/recordset.c) and the dump
driver (src/dump.c), together with theorems settling the specification claims.

Byte buffers are modelled as `List Nat` (each element one byte); node chains
are modelled as explicit lists of node buffers, standing in for the external
Node Source (`ldb_node_read`), which the spec treats as an external
collaborator returning successive `(node, next)` pairs until end of chain.
-/

namespace Ldb

/-- Table descriptor: `key_ln` is the total key length in bytes (always at
least 4), `rec_ln` is 0 for variable-length records, positive for a fixed
record length. -/
structure LdbTable where
  key_ln : Nat
  rec_ln : Nat
deriving DecidableEq

/-- One handler invocation, recording exactly the arguments the C code passes
to `ldb_record_handler`: key, subkey (none for fixed-length nodes), subkey
length, record payload, declared record length, and the zero-based iteration
number (the value of `records` at call time). -/
structure Invocation where
  key : List Nat
  subkey : Option (List Nat)
  subkey_ln : Nat
  data : List Nat
  datalen : Nat
  iteration : Nat
deriving DecidableEq

/-- Handlers are modelled as pure predicates on the invocation arguments;
the return value is the stop flag (`true` = stop). -/
def Handler : Type := Invocation → Bool

/-- Modelled from the spec: the Integer codec (§6) is external to the given
sources; it reads a 2-byte unsigned integer in big-endian byte order at
offset `i` of buffer `b`. -/
def uint16_read (b : List Nat) (i : Nat) : Nat :=
  b.getD i 0 * 256 + b.getD (i + 1) 0

/-- The arguments passed to the handler for one variable-length record
(recordset.c line 112): the payload starts two bytes past the record's
length prefix at offset `dstart + dptr` of the node buffer. -/
def recInv (key subkey : List Nat) (sl : Nat) (buf : List Nat)
    (dstart dptr records : Nat) : Invocation :=
  ⟨key, some subkey, sl, (buf.drop (dstart + dptr + 2)).take (uint16_read buf (dstart + dptr)),
   uint16_read buf (dstart + dptr), records⟩

/-- The arguments passed to the handler for a whole fixed-length node
(recordset.c line 74): null subkey, zero subkey length, the entire node. -/
def fixedInv (key node : List Nat) (records : Nat) : Invocation :=
  ⟨key, none, 0, node, node.length, records⟩

/-- The inner record loop of `ldb_fetch_recordset` (recordset.c lines
101-116): walks the records of one matched dataset.  `dstart` is the offset
of the dataset inside the node buffer `buf` (the C pointer `dataset`), `ds`
the dataset size, `dptr` the running `dataset_ptr`.  Returns the final
`done` flag, `records` counter, and the accumulated invocation trace. -/
def recordLoop (maxRecLn : Nat) (h : Handler) (key subkey : List Nat) (sl : Nat)
    (buf : List Nat) (dstart ds dptr : Nat) (done : Bool) (records : Nat)
    (tr : List Invocation) : Bool × Nat × List Invocation :=
  if hlt : dptr < ds then
    if uint16_read buf (dstart + dptr) + 32 < maxRecLn then
      recordLoop maxRecLn h key subkey sl buf dstart ds
        (dptr + 2 + uint16_read buf (dstart + dptr))
        (h (recInv key subkey sl buf dstart dptr records)) (records + 1)
        (tr ++ [recInv key subkey sl buf dstart dptr records])
    else
      recordLoop maxRecLn h key subkey sl buf dstart ds
        (dptr + 2 + uint16_read buf (dstart + dptr)) done records tr
  else (done, records, tr)
termination_by ds - dptr
decreasing_by all_goals omega

/-- The subkey comparison of recordset.c lines 95-96: `key_matched` stays
true unless subkey filtering is enabled and the subkey length is nonzero,
in which case the group's subkey bytes must equal the key bytes after the
4-byte primary key. -/
def groupMatched (skip_subkey : Bool) (sl : Nat) (key buf : List Nat)
    (node_ptr : Nat) : Bool :=
  if skip_subkey = false ∧ sl ≠ 0 then
    decide ((buf.drop node_ptr).take sl = (key.drop 4).take sl)
  else true

/-- The dataset-group loop of `ldb_fetch_recordset` (recordset.c lines
82-120): walks the dataset groups of one variable-length node.  `sl` is the
subkey length `table.key_ln - LDB_KEY_LN`, `node_size` the declared node
size, `node_ptr` the running cursor. -/
def groupLoop (maxRecLn : Nat) (h : Handler) (key : List Nat)
    (skip_subkey : Bool) (sl : Nat) (buf : List Nat) (node_size node_ptr : Nat)
    (done : Bool) (records : Nat) (tr : List Invocation) :
    Bool × Nat × List Invocation :=
  if hlt : node_ptr < node_size ∧ done = false then
    if groupMatched skip_subkey sl key buf node_ptr then
      let p := recordLoop maxRecLn h key ((buf.drop node_ptr).take sl) sl buf
        (node_ptr + sl + 2) (uint16_read buf (node_ptr + sl)) 0 done records tr
      groupLoop maxRecLn h key skip_subkey sl buf node_size
        (node_ptr + sl + 2 + uint16_read buf (node_ptr + sl)) p.1 p.2.1 p.2.2
    else
      groupLoop maxRecLn h key skip_subkey sl buf node_size
        (node_ptr + sl + 2 + uint16_read buf (node_ptr + sl)) done records tr
  else (done, records, tr)
termination_by node_size - node_ptr
decreasing_by all_goals omega

/-- Modelled from the spec: record-level half of the Node Validator (§6),
which is external to the given sources.  Checks that the record length
prefixes inside a dataset of size `ds` (starting at offset `dstart` of the
node buffer) tile the dataset exactly, so that every prefix-declared record
length is consistent with the remaining dataset length. -/
def validRecords (buf : List Nat) (dstart ds dptr : Nat) : Bool :=
  if hlt : dptr < ds then
    if dptr + 2 ≤ ds ∧ dptr + 2 + uint16_read buf (dstart + dptr) ≤ ds then
      validRecords buf dstart ds (dptr + 2 + uint16_read buf (dstart + dptr))
    else false
  else true
termination_by ds - dptr
decreasing_by all_goals omega

/-- Modelled from the spec: group-level half of the Node Validator (§6).
Checks that every subkey + dataset-size prefix and every declared dataset
fits inside the node's stated size, and that each dataset's records are
internally consistent. -/
def validGroups (buf : List Nat) (node_size sl ptr : Nat) : Bool :=
  if hlt : ptr < node_size then
    if ptr + sl + 2 ≤ node_size ∧ ptr + sl + 2 + uint16_read buf (ptr + sl) ≤ node_size then
      validRecords buf (ptr + sl + 2) (uint16_read buf (ptr + sl)) 0 &&
        validGroups buf node_size sl (ptr + sl + 2 + uint16_read buf (ptr + sl))
    else false
  else true
termination_by node_size - ptr
decreasing_by all_goals omega

/-- Modelled from the spec: the Node Validator `ldb_validate_node` (§6),
external to the given sources: `validate(node_bytes, node_size,
subkey_length)` checks that a variable-length node's internal length fields
are consistent with its stated size. -/
def ldb_validate_node (node : List Nat) (node_size sl : Nat) : Bool :=
  validGroups node node_size sl 0

/-- Processing of a single node inside the node loop of
`ldb_fetch_recordset` (recordset.c lines 73-121): a fixed-length node is
passed whole to the handler (line 74); a variable-length node is first
validated (line 79) and, if valid, walked group by group; a corrupt node
leaves the state untouched. -/
def nodeStep (maxRecLn : Nat) (table : LdbTable) (key : List Nat)
    (skip_subkey : Bool) (h : Handler) (node : List Nat) (done : Bool)
    (records : Nat) (tr : List Invocation) : Bool × Nat × List Invocation :=
  if table.rec_ln ≠ 0 then
    (h (fixedInv key node records), records + 1, tr ++ [fixedInv key node records])
  else if ldb_validate_node node node.length (table.key_ln - 4) then
    groupLoop maxRecLn h key skip_subkey (table.key_ln - 4) node node.length 0
      done records tr
  else (done, records, tr)

/-- The node loop of `ldb_fetch_recordset` (recordset.c lines 67-122).  The
chain of nodes delivered by the external Node Source is modelled as an
explicit list: reading from `[]` yields `(empty, next = 0)`, reading from
`node :: rest` yields `node` with `next` nonzero exactly when `rest` is
nonempty.  The break on line 71 (`!node_size && !next`) and the loop guard
on line 122 (`next && !done`) are reproduced verbatim. -/
def fetchBody (maxRecLn : Nat) (table : LdbTable) (key : List Nat)
    (skip_subkey : Bool) (h : Handler) :
    List (List Nat) → Bool → Nat → List Invocation → Nat × List Invocation
  | [], _, records, tr => (records, tr)
  | node :: rest, done, records, tr =>
    if node.length = 0 ∧ rest = [] then (records, tr)
    else
      let step := nodeStep maxRecLn table key skip_subkey h node done records tr
      if rest.isEmpty ∨ step.1 = true then (step.2.1, step.2.2)
      else fetchBody maxRecLn table key skip_subkey h rest step.1 step.2.1 step.2.2

/-- `ldb_fetch_recordset` (recordset.c lines 45-131), with the external Node
Source abstracted to the explicit node chain `chain` and the constant
`LDB_MAX_REC_LN` abstracted to the parameter `maxRecLn`.  Returns the record
counter together with the full trace of handler invocations (in invocation
order), so that claims about how often and with which arguments the handler
ran can be stated. -/
def ldb_fetch_recordset (maxRecLn : Nat) (table : LdbTable) (key : List Nat)
    (skip_subkey : Bool) (h : Handler) (chain : List (List Nat)) :
    Nat × List Invocation :=
  fetchBody maxRecLn table key skip_subkey h chain false 0 []

/-- `ldb_key_exists_handler` (recordset.c lines 181-184): returns true
always, ignoring all arguments. -/
def ldb_key_exists_handler : Handler := fun _ => true

/-- `ldb_key_exists` (recordset.c lines 193-196): true iff the decode of
`key` with `ldb_key_exists_handler` (and subkey filtering not skipped)
found more than zero records. -/
def ldb_key_exists (maxRecLn : Nat) (table : LdbTable) (key : List Nat)
    (chain : List (List Nat)) : Bool :=
  decide (0 < (ldb_fetch_recordset maxRecLn table key false ldb_key_exists_handler chain).1)

/-- Specification-level count of the records of one dataset that pass the
oversized-record check (`record_size + 32 < maxRecLn`), following the same
cursor arithmetic as the record loop.  Used to state how many handler
invocations a dataset produces, independently of the handler. -/
def datasetHits (maxRecLn : Nat) (buf : List Nat) (dstart ds dptr : Nat) : Nat :=
  if hlt : dptr < ds then
    if uint16_read buf (dstart + dptr) + 32 < maxRecLn then
      1 + datasetHits maxRecLn buf dstart ds (dptr + 2 + uint16_read buf (dstart + dptr))
    else datasetHits maxRecLn buf dstart ds (dptr + 2 + uint16_read buf (dstart + dptr))
  else 0
termination_by ds - dptr
decreasing_by all_goals omega

/-- Specification-level count of the invocations an always-stop handler
receives from the group walk of one variable-length node starting at
`node_ptr`: the size-passing records of the first matching dataset group
that yields any invocation (later groups are never reached because the stop
flag is checked at the group boundary). -/
def stopScanGroups (maxRecLn : Nat) (key : List Nat) (skip_subkey : Bool)
    (sl : Nat) (buf : List Nat) (node_size node_ptr : Nat) : Nat :=
  if hlt : node_ptr < node_size then
    if groupMatched skip_subkey sl key buf node_ptr then
      if datasetHits maxRecLn buf (node_ptr + sl + 2) (uint16_read buf (node_ptr + sl)) 0 = 0 then
        stopScanGroups maxRecLn key skip_subkey sl buf node_size
          (node_ptr + sl + 2 + uint16_read buf (node_ptr + sl))
      else datasetHits maxRecLn buf (node_ptr + sl + 2) (uint16_read buf (node_ptr + sl)) 0
    else
      stopScanGroups maxRecLn key skip_subkey sl buf node_size
        (node_ptr + sl + 2 + uint16_read buf (node_ptr + sl))
  else 0
termination_by node_size - node_ptr
decreasing_by all_goals omega

/-- Specification-level count of the invocations an always-stop handler
receives from a single node: 1 for a fixed-length node, the first hitting
group's size-passing records for a valid variable-length node, 0 for a
corrupt node. -/
def nodeStopCount (maxRecLn : Nat) (table : LdbTable) (key : List Nat)
    (skip_subkey : Bool) (node : List Nat) : Nat :=
  if table.rec_ln ≠ 0 then 1
  else if ldb_validate_node node node.length (table.key_ln - 4) then
    stopScanGroups maxRecLn key skip_subkey (table.key_ln - 4) node node.length 0
  else 0

/-- Specification-level count of the invocations an always-stop handler
receives from a whole node chain: the chain walk proceeds to the next node
exactly when the current node delivered nothing and a chained node
follows. -/
def stopScanChain (maxRecLn : Nat) (table : LdbTable) (key : List Nat)
    (skip_subkey : Bool) : List (List Nat) → Nat
  | [] => 0
  | node :: rest =>
    if node.length = 0 ∧ rest = [] then 0
    else
      if nodeStopCount maxRecLn table key skip_subkey node = 0 ∧ rest ≠ [] then
        stopScanChain maxRecLn table key skip_subkey rest
      else nodeStopCount maxRecLn table key skip_subkey node

/-- One recorded invocation of the Recordset Decoder by the dump driver:
the assembled 4-byte key, the skip-subkey flag it was called with, and the
in-memory sector image it was given.  The decoder's behaviour on a call is
covered by the `ldb_fetch_recordset` theorems; for the driver the claims
concern which calls are made and in which order. -/
structure DumpCall (α : Type) where
  key : List Nat
  skip_subkey : Bool
  sector : α
deriving DecidableEq

/-- The inner triple loop of `ldb_dump` (dump.c lines 34-50) for one shard:
for every `(k1, k2, k3)` in nested ascending order, if the existence map
reports a pointer for the assembled key, the decoder is invoked with
subkey filtering skipped and the in-memory sector image.  The external
sector loader and existence map (`ldb_load_sector`, `ldb_map_pointer_pos`)
are abstracted as the parameters `ls` and `mp`. -/
def dumpShard {α : Type} (ls : Nat → Option α) (mp : List Nat → Bool)
    (k0 : Nat) : List (DumpCall α) :=
  match ls k0 with
  | none => []
  | some s =>
    (List.range 256).flatMap fun k1 =>
      (List.range 256).flatMap fun k2 =>
        (List.range 256).filterMap fun k3 =>
          if mp [k0, k1, k2, k3] then some ⟨[k0, k1, k2, k3], true, s⟩ else none

/-- The outer do-while of `ldb_dump` (dump.c lines 30-53): process the shard
for the current leading byte `k0`, then continue with `k0 + 1` as long as
the loop guard `k0++ < 255` holds. -/
def dumpFrom {α : Type} (ls : Nat → Option α) (mp : List Nat → Bool)
    (k0 : Nat) : List (DumpCall α) :=
  dumpShard ls mp k0 ++ (if hlt : k0 < 255 then dumpFrom ls mp (k0 + 1) else [])
termination_by 255 - k0
decreasing_by all_goals omega

/-- `ldb_dump` (dump.c lines 23-55), modelled as the list of decoder
invocations the driver performs, in order.  The CSV handler, the hex flag
and the record totalling are output concerns that do not influence which
calls are made. -/
def ldb_dump {α : Type} (ls : Nat → Option α) (mp : List Nat → Bool) :
    List (DumpCall α) :=
  dumpFrom ls mp 0

/-- Specification-shaped enumeration, following the words of §4.3: for each
leading byte value `k0` from 0 to 255 inclusive in ascending order, skip
the shard silently when no sector loads, and otherwise visit all 256³
combinations `(k1, k2, k3)` in nested ascending order, invoking the decoder
(subkey filtering skipped, in-memory sector image) exactly for the keys
where the existence map reports possible data. -/
def ldb_dump_spec {α : Type} (ls : Nat → Option α) (mp : List Nat → Bool) :
    List (DumpCall α) :=
  (List.range 256).flatMap fun k0 =>
    match ls k0 with
    | none => []
    | some s =>
      (List.range 256).flatMap fun k1 =>
        (List.range 256).flatMap fun k2 =>
          (List.range 256).filterMap fun k3 =>
            if mp [k0, k1, k2, k3] then some ⟨[k0, k1, k2, k3], true, s⟩ else none

/-! ### One-step unfolding lemmas for the well-founded definitions -/

theorem recordLoop_pos {maxRecLn : Nat} {h : Handler} {key subkey : List Nat}
    {sl : Nat} {buf : List Nat} {dstart ds dptr : Nat} {done : Bool}
    {records : Nat} {tr : List Invocation} (hlt : dptr < ds) :
    recordLoop maxRecLn h key subkey sl buf dstart ds dptr done records tr =
      if uint16_read buf (dstart + dptr) + 32 < maxRecLn then
        recordLoop maxRecLn h key subkey sl buf dstart ds
          (dptr + 2 + uint16_read buf (dstart + dptr))
          (h (recInv key subkey sl buf dstart dptr records)) (records + 1)
          (tr ++ [recInv key subkey sl buf dstart dptr records])
      else
        recordLoop maxRecLn h key subkey sl buf dstart ds
          (dptr + 2 + uint16_read buf (dstart + dptr)) done records tr := by
  rw [recordLoop, dif_pos hlt]

theorem recordLoop_neg {maxRecLn : Nat} {h : Handler} {key subkey : List Nat}
    {sl : Nat} {buf : List Nat} {dstart ds dptr : Nat} {done : Bool}
    {records : Nat} {tr : List Invocation} (hlt : ¬ dptr < ds) :
    recordLoop maxRecLn h key subkey sl buf dstart ds dptr done records tr =
      (done, records, tr) := by
  rw [recordLoop, dif_neg hlt]

theorem groupLoop_pos {maxRecLn : Nat} {h : Handler} {key : List Nat}
    {skip_subkey : Bool} {sl : Nat} {buf : List Nat} {node_size node_ptr : Nat}
    {records : Nat} {tr : List Invocation} (hlt : node_ptr < node_size) :
    groupLoop maxRecLn h key skip_subkey sl buf node_size node_ptr false records tr =
      if groupMatched skip_subkey sl key buf node_ptr then
        groupLoop maxRecLn h key skip_subkey sl buf node_size
          (node_ptr + sl + 2 + uint16_read buf (node_ptr + sl))
          (recordLoop maxRecLn h key ((buf.drop node_ptr).take sl) sl buf
            (node_ptr + sl + 2) (uint16_read buf (node_ptr + sl)) 0 false records tr).1
          (recordLoop maxRecLn h key ((buf.drop node_ptr).take sl) sl buf
            (node_ptr + sl + 2) (uint16_read buf (node_ptr + sl)) 0 false records tr).2.1
          (recordLoop maxRecLn h key ((buf.drop node_ptr).take sl) sl buf
            (node_ptr + sl + 2) (uint16_read buf (node_ptr + sl)) 0 false records tr).2.2
      else
        groupLoop maxRecLn h key skip_subkey sl buf node_size
          (node_ptr + sl + 2 + uint16_read buf (node_ptr + sl)) false records tr := by
  rw [groupLoop, dif_pos ⟨hlt, rfl⟩]

theorem groupLoop_neg {maxRecLn : Nat} {h : Handler} {key : List Nat}
    {skip_subkey : Bool} {sl : Nat} {buf : List Nat} {node_size node_ptr : Nat}
    {done : Bool} {records : Nat} {tr : List Invocation}
    (hlt : ¬ (node_ptr < node_size ∧ done = false)) :
    groupLoop maxRecLn h key skip_subkey sl buf node_size node_ptr done records tr =
      (done, records, tr) := by
  rw [groupLoop, dif_neg hlt]

theorem groupLoop_done (maxRecLn : Nat) (h : Handler) (key : List Nat)
    (skip_subkey : Bool) (sl : Nat) (buf : List Nat) (node_size node_ptr : Nat)
    (records : Nat) (tr : List Invocation) :
    groupLoop maxRecLn h key skip_subkey sl buf node_size node_ptr true records tr =
      (true, records, tr) := by
  rw [groupLoop, dif_neg]
  simp

theorem validRecords_pos {buf : List Nat} {dstart ds dptr : Nat} (hlt : dptr < ds) :
    validRecords buf dstart ds dptr =
      if dptr + 2 ≤ ds ∧ dptr + 2 + uint16_read buf (dstart + dptr) ≤ ds then
        validRecords buf dstart ds (dptr + 2 + uint16_read buf (dstart + dptr))
      else false := by
  rw [validRecords, dif_pos hlt]

theorem validRecords_neg {buf : List Nat} {dstart ds dptr : Nat} (hlt : ¬ dptr < ds) :
    validRecords buf dstart ds dptr = true := by
  rw [validRecords, dif_neg hlt]

theorem validGroups_pos {buf : List Nat} {node_size sl ptr : Nat} (hlt : ptr < node_size) :
    validGroups buf node_size sl ptr =
      if ptr + sl + 2 ≤ node_size ∧ ptr + sl + 2 + uint16_read buf (ptr + sl) ≤ node_size then
        validRecords buf (ptr + sl + 2) (uint16_read buf (ptr + sl)) 0 &&
          validGroups buf node_size sl (ptr + sl + 2 + uint16_read buf (ptr + sl))
      else false := by
  rw [validGroups, dif_pos hlt]

theorem validGroups_neg {buf : List Nat} {node_size sl ptr : Nat} (hlt : ¬ ptr < node_size) :
    validGroups buf node_size sl ptr = true := by
  rw [validGroups, dif_neg hlt]

theorem datasetHits_pos {maxRecLn : Nat} {buf : List Nat} {dstart ds dptr : Nat}
    (hlt : dptr < ds) :
    datasetHits maxRecLn buf dstart ds dptr =
      if uint16_read buf (dstart + dptr) + 32 < maxRecLn then
        1 + datasetHits maxRecLn buf dstart ds (dptr + 2 + uint16_read buf (dstart + dptr))
      else datasetHits maxRecLn buf dstart ds (dptr + 2 + uint16_read buf (dstart + dptr)) := by
  rw [datasetHits, dif_pos hlt]

theorem datasetHits_neg {maxRecLn : Nat} {buf : List Nat} {dstart ds dptr : Nat}
    (hlt : ¬ dptr < ds) :
    datasetHits maxRecLn buf dstart ds dptr = 0 := by
  rw [datasetHits, dif_neg hlt]

theorem stopScanGroups_pos {maxRecLn : Nat} {key : List Nat} {skip_subkey : Bool}
    {sl : Nat} {buf : List Nat} {node_size node_ptr : Nat} (hlt : node_ptr < node_size) :
    stopScanGroups maxRecLn key skip_subkey sl buf node_size node_ptr =
      if groupMatched skip_subkey sl key buf node_ptr then
        if datasetHits maxRecLn buf (node_ptr + sl + 2) (uint16_read buf (node_ptr + sl)) 0 = 0 then
          stopScanGroups maxRecLn key skip_subkey sl buf node_size
            (node_ptr + sl + 2 + uint16_read buf (node_ptr + sl))
        else datasetHits maxRecLn buf (node_ptr + sl + 2) (uint16_read buf (node_ptr + sl)) 0
      else
        stopScanGroups maxRecLn key skip_subkey sl buf node_size
          (node_ptr + sl + 2 + uint16_read buf (node_ptr + sl)) := by
  rw [stopScanGroups, dif_pos hlt]

theorem stopScanGroups_neg {maxRecLn : Nat} {key : List Nat} {skip_subkey : Bool}
    {sl : Nat} {buf : List Nat} {node_size node_ptr : Nat} (hlt : ¬ node_ptr < node_size) :
    stopScanGroups maxRecLn key skip_subkey sl buf node_size node_ptr = 0 := by
  rw [stopScanGroups, dif_neg hlt]

theorem dumpFrom_eq {α : Type} (ls : Nat → Option α) (mp : List Nat → Bool) (k0 : Nat) :
    dumpFrom ls mp k0 =
      dumpShard ls mp k0 ++ (if k0 < 255 then dumpFrom ls mp (k0 + 1) else []) := by
  rw [dumpFrom]
  simp [dite_eq_ite]

theorem fetchBody_cons (maxRecLn : Nat) (table : LdbTable) (key : List Nat)
    (skip_subkey : Bool) (h : Handler) (node : List Nat) (rest : List (List Nat))
    (done : Bool) (records : Nat) (tr : List Invocation) :
    fetchBody maxRecLn table key skip_subkey h (node :: rest) done records tr =
      if node.length = 0 ∧ rest = [] then (records, tr)
      else
        if rest.isEmpty ∨ (nodeStep maxRecLn table key skip_subkey h node done records tr).1 = true then
          ((nodeStep maxRecLn table key skip_subkey h node done records tr).2.1,
           (nodeStep maxRecLn table key skip_subkey h node done records tr).2.2)
        else fetchBody maxRecLn table key skip_subkey h rest
          (nodeStep maxRecLn table key skip_subkey h node done records tr).1
          (nodeStep maxRecLn table key skip_subkey h node done records tr).2.1
          (nodeStep maxRecLn table key skip_subkey h node done records tr).2.2 := by
  rfl

/-! ### Counting lemmas: the record counter tracks the invocation trace -/

theorem recordLoop_len (maxRecLn : Nat) (h : Handler) (key subkey : List Nat)
    (sl : Nat) (buf : List Nat) (dstart ds dptr : Nat) (done : Bool)
    (records : Nat) (tr : List Invocation) :
    ((recordLoop maxRecLn h key subkey sl buf dstart ds dptr done records tr).2.2).length + records
      = (recordLoop maxRecLn h key subkey sl buf dstart ds dptr done records tr).2.1 + tr.length := by
  induction dptr, done, records, tr using recordLoop.induct maxRecLn h key subkey sl buf dstart ds with
  | case1 dptr done records tr hlt hsz ih =>
    rw [recordLoop_pos hlt, if_pos hsz]
    simp only [List.length_append, List.length_cons, List.length_nil] at ih ⊢
    omega
  | case2 dptr done records tr hlt hsz ih =>
    rw [recordLoop_pos hlt, if_neg hsz]
    exact ih
  | case3 dptr done records tr hlt =>
    rw [recordLoop_neg hlt]
    show tr.length + records = records + tr.length
    omega

theorem groupLoop_len (maxRecLn : Nat) (h : Handler) (key : List Nat)
    (skip_subkey : Bool) (sl : Nat) (buf : List Nat) (node_size node_ptr : Nat)
    (done : Bool) (records : Nat) (tr : List Invocation) :
    ((groupLoop maxRecLn h key skip_subkey sl buf node_size node_ptr done records tr).2.2).length + records
      = (groupLoop maxRecLn h key skip_subkey sl buf node_size node_ptr done records tr).2.1 + tr.length := by
  induction node_ptr, done, records, tr using groupLoop.induct maxRecLn h key skip_subkey sl buf node_size with
  | case1 node_ptr done records tr hlt hm p ih =>
    obtain ⟨h1, h2⟩ := hlt
    subst h2
    have hp : p = recordLoop maxRecLn h key ((buf.drop node_ptr).take sl) sl buf
        (node_ptr + sl + 2) (uint16_read buf (node_ptr + sl)) 0 false records tr := rfl
    rw [hp] at ih
    rw [groupLoop_pos h1, if_pos hm]
    have hr := recordLoop_len maxRecLn h key ((buf.drop node_ptr).take sl) sl buf
      (node_ptr + sl + 2) (uint16_read buf (node_ptr + sl)) 0 false records tr
    omega
  | case2 node_ptr done records tr hlt hm ih =>
    obtain ⟨h1, h2⟩ := hlt
    subst h2
    rw [groupLoop_pos h1, if_neg hm]
    exact ih
  | case3 node_ptr done records tr hlt =>
    rw [groupLoop_neg hlt]
    show tr.length + records = records + tr.length
    omega

theorem nodeStep_len (maxRecLn : Nat) (table : LdbTable) (key : List Nat)
    (skip_subkey : Bool) (h : Handler) (node : List Nat) (done : Bool)
    (records : Nat) (tr : List Invocation) :
    ((nodeStep maxRecLn table key skip_subkey h node done records tr).2.2).length + records
      = (nodeStep maxRecLn table key skip_subkey h node done records tr).2.1 + tr.length := by
  unfold nodeStep
  split
  · simp only [List.length_append, List.length_cons, List.length_nil]
    omega
  · split
    · exact groupLoop_len maxRecLn h key skip_subkey (table.key_ln - 4) node
        node.length 0 done records tr
    · show tr.length + records = records + tr.length
      omega

theorem fetchBody_len (maxRecLn : Nat) (table : LdbTable) (key : List Nat)
    (skip_subkey : Bool) (h : Handler) :
    ∀ (chain : List (List Nat)) (done : Bool) (records : Nat) (tr : List Invocation),
    ((fetchBody maxRecLn table key skip_subkey h chain done records tr).2).length + records
      = (fetchBody maxRecLn table key skip_subkey h chain done records tr).1 + tr.length := by
  intro chain
  induction chain with
  | nil =>
    intro done records tr
    show tr.length + records = records + tr.length
    omega
  | cons node rest ih =>
    intro done records tr
    rw [fetchBody_cons]
    split
    · show tr.length + records = records + tr.length
      omega
    · have hn := nodeStep_len maxRecLn table key skip_subkey h node done records tr
      split
      · exact hn
      · have := ih (nodeStep maxRecLn table key skip_subkey h node done records tr).1
          (nodeStep maxRecLn table key skip_subkey h node done records tr).2.1
          (nodeStep maxRecLn table key skip_subkey h node done records tr).2.2
        omega

/-! ### Structure of the record loop: the stop flag is not consulted inside -/

theorem recordLoop_snd_indep (maxRecLn : Nat) (h : Handler) (key subkey : List Nat)
    (sl : Nat) (buf : List Nat) (dstart ds : Nat) :
    ∀ (dptr : Nat) (done : Bool) (records : Nat) (tr : List Invocation) (d2 : Bool),
    (recordLoop maxRecLn h key subkey sl buf dstart ds dptr done records tr).2
      = (recordLoop maxRecLn h key subkey sl buf dstart ds dptr d2 records tr).2 := by
  intro dptr done records tr
  induction dptr, done, records, tr using recordLoop.induct maxRecLn h key subkey sl buf dstart ds with
  | case1 dptr done records tr hlt hsz ih =>
    intro d2
    rw [recordLoop_pos hlt, if_pos hsz, recordLoop_pos hlt, if_pos hsz]
  | case2 dptr done records tr hlt hsz ih =>
    intro d2
    rw [recordLoop_pos hlt, if_neg hsz, recordLoop_pos hlt, if_neg hsz]
    exact ih d2
  | case3 dptr done records tr hlt =>
    intro d2
    rw [recordLoop_neg hlt, recordLoop_neg hlt]

theorem recordLoop_records (maxRecLn : Nat) (h : Handler) (key subkey : List Nat)
    (sl : Nat) (buf : List Nat) (dstart ds : Nat) :
    ∀ (dptr : Nat) (done : Bool) (records : Nat) (tr : List Invocation),
    (recordLoop maxRecLn h key subkey sl buf dstart ds dptr done records tr).2.1
      = records + datasetHits maxRecLn buf dstart ds dptr := by
  intro dptr done records tr
  induction dptr, done, records, tr using recordLoop.induct maxRecLn h key subkey sl buf dstart ds with
  | case1 dptr done records tr hlt hsz ih =>
    rw [recordLoop_pos hlt, if_pos hsz, datasetHits_pos hlt, if_pos hsz]
    omega
  | case2 dptr done records tr hlt hsz ih =>
    rw [recordLoop_pos hlt, if_neg hsz, datasetHits_pos hlt, if_neg hsz]
    exact ih
  | case3 dptr done records tr hlt =>
    rw [recordLoop_neg hlt, datasetHits_neg hlt]
    show records = records + 0
    omega

theorem recordLoop_tr (maxRecLn : Nat) (h : Handler) (key subkey : List Nat)
    (sl : Nat) (buf : List Nat) (dstart ds : Nat) :
    ∀ (fuel dptr : Nat) (done : Bool) (records : Nat) (tr : List Invocation),
    ds - dptr ≤ fuel →
    (recordLoop maxRecLn h key subkey sl buf dstart ds dptr done records tr).2.2
      = tr ++ (recordLoop maxRecLn h key subkey sl buf dstart ds dptr done records []).2.2 := by
  intro fuel
  induction fuel with
  | zero =>
    intro dptr done records tr hle
    have hlt : ¬ dptr < ds := by omega
    rw [recordLoop_neg hlt, recordLoop_neg hlt]
    simp
  | succ n ihn =>
    intro dptr done records tr hle
    by_cases hlt : dptr < ds
    · rw [recordLoop_pos hlt, recordLoop_pos hlt]
      by_cases hsz : uint16_read buf (dstart + dptr) + 32 < maxRecLn
      · rw [if_pos hsz, if_pos hsz]
        rw [ihn (dptr + 2 + uint16_read buf (dstart + dptr))
          (h (recInv key subkey sl buf dstart dptr records)) (records + 1)
          (tr ++ [recInv key subkey sl buf dstart dptr records]) (by omega)]
        rw [ihn (dptr + 2 + uint16_read buf (dstart + dptr))
          (h (recInv key subkey sl buf dstart dptr records)) (records + 1)
          ([] ++ [recInv key subkey sl buf dstart dptr records]) (by omega)]
        simp
      · rw [if_neg hsz, if_neg hsz]
        exact ihn (dptr + 2 + uint16_read buf (dstart + dptr)) done records tr (by omega)
    · rw [recordLoop_neg hlt, recordLoop_neg hlt]
      simp

theorem recordLoop_fst_foldl (maxRecLn : Nat) (h : Handler) (key subkey : List Nat)
    (sl : Nat) (buf : List Nat) (dstart ds : Nat) :
    ∀ (fuel dptr : Nat) (done : Bool) (records : Nat) (tr : List Invocation),
    ds - dptr ≤ fuel →
    (recordLoop maxRecLn h key subkey sl buf dstart ds dptr done records tr).1
      = List.foldl (fun _ inv => h inv) done
          ((recordLoop maxRecLn h key subkey sl buf dstart ds dptr done records []).2.2) := by
  intro fuel
  induction fuel with
  | zero =>
    intro dptr done records tr hle
    have hlt : ¬ dptr < ds := by omega
    rw [recordLoop_neg hlt, recordLoop_neg hlt]
    rfl
  | succ n ihn =>
    intro dptr done records tr hle
    by_cases hlt : dptr < ds
    · rw [recordLoop_pos hlt, recordLoop_pos hlt]
      by_cases hsz : uint16_read buf (dstart + dptr) + 32 < maxRecLn
      · rw [if_pos hsz, if_pos hsz]
        rw [ihn (dptr + 2 + uint16_read buf (dstart + dptr))
          (h (recInv key subkey sl buf dstart dptr records)) (records + 1)
          (tr ++ [recInv key subkey sl buf dstart dptr records]) (by omega)]
        rw [recordLoop_tr maxRecLn h key subkey sl buf dstart ds
          (ds - (dptr + 2 + uint16_read buf (dstart + dptr)))
          (dptr + 2 + uint16_read buf (dstart + dptr))
          (h (recInv key subkey sl buf dstart dptr records)) (records + 1)
          ([] ++ [recInv key subkey sl buf dstart dptr records]) (by omega)]
        simp
      · rw [if_neg hsz, if_neg hsz]
        exact ihn (dptr + 2 + uint16_read buf (dstart + dptr)) done records tr (by omega)
    · rw [recordLoop_neg hlt, recordLoop_neg hlt]
      rfl

theorem recordLoop_pure (maxRecLn : Nat) (h : Handler) (key subkey : List Nat)
    (sl : Nat) (buf : List Nat) (dstart ds : Nat) :
    ∀ (dptr : Nat) (done : Bool) (records : Nat) (tr : List Invocation),
    datasetHits maxRecLn buf dstart ds dptr = 0 →
    recordLoop maxRecLn h key subkey sl buf dstart ds dptr done records tr
      = (done, records, tr) := by
  intro dptr done records tr
  induction dptr, done, records, tr using recordLoop.induct maxRecLn h key subkey sl buf dstart ds with
  | case1 dptr done records tr hlt hsz ih =>
    intro hz
    rw [datasetHits_pos hlt, if_pos hsz] at hz
    omega
  | case2 dptr done records tr hlt hsz ih =>
    intro hz
    rw [datasetHits_pos hlt, if_neg hsz] at hz
    rw [recordLoop_pos hlt, if_neg hsz]
    exact ih hz
  | case3 dptr done records tr hlt =>
    intro hz
    rw [recordLoop_neg hlt]

/-! ### Claim C10 -/

/-- C10: inside one matched dataset the stop flag is never consulted:
(1) the record counter and invocation trace produced by the record loop do
not depend on the incoming flag, so every size-passing record is delivered
even after an earlier record returned stop; (2) the counter rises by
exactly the number of size-passing records of the dataset, for every
handler; (3) the resulting flag is the fold of the handler's return values
over the dataset's invocations, i.e. each invocation overwrites the flag
and a later continue return resumes decoding; (4) the flag is consulted at
the dataset-group boundary: a group loop entered with the flag set returns
immediately. -/
theorem stop_flag_group_boundary (maxRecLn : Nat) (h : Handler)
    (key subkey : List Nat) (sl : Nat) (buf : List Nat) (dstart ds dptr : Nat)
    (done : Bool) (records : Nat) (tr : List Invocation)
    (skip_subkey : Bool) (node_size node_ptr : Nat) :
    ((recordLoop maxRecLn h key subkey sl buf dstart ds dptr true records tr).2
        = (recordLoop maxRecLn h key subkey sl buf dstart ds dptr false records tr).2)
    ∧ ((recordLoop maxRecLn h key subkey sl buf dstart ds dptr done records tr).2.1
        = records + datasetHits maxRecLn buf dstart ds dptr)
    ∧ ((recordLoop maxRecLn h key subkey sl buf dstart ds dptr done records tr).1
        = List.foldl (fun _ inv => h inv) done
            ((recordLoop maxRecLn h key subkey sl buf dstart ds dptr done records []).2.2))
    ∧ (groupLoop maxRecLn h key skip_subkey sl buf node_size node_ptr true records tr
        = (true, records, tr)) :=
  ⟨recordLoop_snd_indep maxRecLn h key subkey sl buf dstart ds dptr true records tr false,
   recordLoop_records maxRecLn h key subkey sl buf dstart ds dptr done records tr,
   recordLoop_fst_foldl maxRecLn h key subkey sl buf dstart ds (ds - dptr) dptr done records tr
     (Nat.le_refl _),
   groupLoop_done maxRecLn h key skip_subkey sl buf node_size node_ptr records tr⟩

/-! ### Zero-invocation runs are handler-independent -/

theorem groupLoop_mono (maxRecLn : Nat) (h : Handler) (key : List Nat)
    (skip_subkey : Bool) (sl : Nat) (buf : List Nat) (node_size : Nat) :
    ∀ (node_ptr : Nat) (done : Bool) (records : Nat) (tr : List Invocation),
    records ≤ (groupLoop maxRecLn h key skip_subkey sl buf node_size node_ptr done records tr).2.1 := by
  intro node_ptr done records tr
  induction node_ptr, done, records, tr using groupLoop.induct maxRecLn h key skip_subkey sl buf node_size with
  | case1 node_ptr done records tr hlt hm p ih =>
    obtain ⟨h1, h2⟩ := hlt
    subst h2
    have hp : p = recordLoop maxRecLn h key ((buf.drop node_ptr).take sl) sl buf
        (node_ptr + sl + 2) (uint16_read buf (node_ptr + sl)) 0 false records tr := rfl
    rw [hp] at ih
    rw [groupLoop_pos h1, if_pos hm]
    have hr := recordLoop_records maxRecLn h key ((buf.drop node_ptr).take sl) sl buf
      (node_ptr + sl + 2) (uint16_read buf (node_ptr + sl)) 0 false records tr
    omega
  | case2 node_ptr done records tr hlt hm ih =>
    obtain ⟨h1, h2⟩ := hlt
    subst h2
    rw [groupLoop_pos h1, if_neg hm]
    exact ih
  | case3 node_ptr done records tr hlt =>
    rw [groupLoop_neg hlt]

theorem groupLoop_zero (maxRecLn : Nat) (ha hb : Handler) (key : List Nat)
    (skip_subkey : Bool) (sl : Nat) (buf : List Nat) (node_size : Nat) :
    ∀ (node_ptr : Nat) (done : Bool) (records : Nat) (tr : List Invocation),
    (groupLoop maxRecLn ha key skip_subkey sl buf node_size node_ptr done records tr).2.1 = records →
    groupLoop maxRecLn hb key skip_subkey sl buf node_size node_ptr done records tr
      = (done, records, tr) := by
  intro node_ptr done records tr
  induction node_ptr, done, records, tr using groupLoop.induct maxRecLn ha key skip_subkey sl buf node_size with
  | case1 node_ptr done records tr hlt hm p ih =>
    obtain ⟨h1, h2⟩ := hlt
    subst h2
    have hp : p = recordLoop maxRecLn ha key ((buf.drop node_ptr).take sl) sl buf
        (node_ptr + sl + 2) (uint16_read buf (node_ptr + sl)) 0 false records tr := rfl
    rw [hp] at ih
    intro hz
    rw [groupLoop_pos h1, if_pos hm] at hz
    have hmono := groupLoop_mono maxRecLn ha key skip_subkey sl buf node_size
      (node_ptr + sl + 2 + uint16_read buf (node_ptr + sl))
      (recordLoop maxRecLn ha key ((buf.drop node_ptr).take sl) sl buf
        (node_ptr + sl + 2) (uint16_read buf (node_ptr + sl)) 0 false records tr).1
      (recordLoop maxRecLn ha key ((buf.drop node_ptr).take sl) sl buf
        (node_ptr + sl + 2) (uint16_read buf (node_ptr + sl)) 0 false records tr).2.1
      (recordLoop maxRecLn ha key ((buf.drop node_ptr).take sl) sl buf
        (node_ptr + sl + 2) (uint16_read buf (node_ptr + sl)) 0 false records tr).2.2
    have hr := recordLoop_records maxRecLn ha key ((buf.drop node_ptr).take sl) sl buf
      (node_ptr + sl + 2) (uint16_read buf (node_ptr + sl)) 0 false records tr
    have hhits : datasetHits maxRecLn buf (node_ptr + sl + 2) (uint16_read buf (node_ptr + sl)) 0 = 0 := by
      omega
    have hpa := recordLoop_pure maxRecLn ha key ((buf.drop node_ptr).take sl) sl buf
      (node_ptr + sl + 2) (uint16_read buf (node_ptr + sl)) 0 false records tr hhits
    have hpb := recordLoop_pure maxRecLn hb key ((buf.drop node_ptr).take sl) sl buf
      (node_ptr + sl + 2) (uint16_read buf (node_ptr + sl)) 0 false records tr hhits
    rw [hpa] at ih hz
    rw [groupLoop_pos h1, if_pos hm, hpb]
    exact ih hz
  | case2 node_ptr done records tr hlt hm ih =>
    obtain ⟨h1, h2⟩ := hlt
    subst h2
    intro hz
    rw [groupLoop_pos h1, if_neg hm] at hz
    rw [groupLoop_pos h1, if_neg hm]
    exact ih hz
  | case3 node_ptr done records tr hlt =>
    intro hz
    rw [groupLoop_neg hlt]

theorem nodeStep_mono (maxRecLn : Nat) (table : LdbTable) (key : List Nat)
    (skip_subkey : Bool) (h : Handler) (node : List Nat) (done : Bool)
    (records : Nat) (tr : List Invocation) :
    records ≤ (nodeStep maxRecLn table key skip_subkey h node done records tr).2.1 := by
  unfold nodeStep
  split
  · exact Nat.le_succ records
  · split
    · exact groupLoop_mono maxRecLn h key skip_subkey (table.key_ln - 4) node
        node.length 0 done records tr
    · exact Nat.le_refl records

theorem nodeStep_zero (maxRecLn : Nat) (table : LdbTable) (key : List Nat)
    (skip_subkey : Bool) (ha hb : Handler) (node : List Nat) (done : Bool)
    (records : Nat) (tr : List Invocation)
    (hz : (nodeStep maxRecLn table key skip_subkey ha node done records tr).2.1 = records) :
    nodeStep maxRecLn table key skip_subkey hb node done records tr = (done, records, tr) := by
  unfold nodeStep at hz ⊢
  split at hz
  · have : records + 1 = records := hz
    omega
  · split at hz
    · rename_i hfix hv
      rw [if_neg hfix, if_pos hv]
      exact groupLoop_zero maxRecLn ha hb key skip_subkey (table.key_ln - 4) node
        node.length 0 done records tr hz
    · rename_i hfix hv
      rw [if_neg hfix, if_neg hv]

theorem fetchBody_mono (maxRecLn : Nat) (table : LdbTable) (key : List Nat)
    (skip_subkey : Bool) (h : Handler) :
    ∀ (chain : List (List Nat)) (done : Bool) (records : Nat) (tr : List Invocation),
    records ≤ (fetchBody maxRecLn table key skip_subkey h chain done records tr).1 := by
  intro chain
  induction chain with
  | nil => intro done records tr; exact Nat.le_refl records
  | cons node rest ih =>
    intro done records tr
    rw [fetchBody_cons]
    split
    · exact Nat.le_refl records
    · have hn := nodeStep_mono maxRecLn table key skip_subkey h node done records tr
      split
      · exact hn
      · have hr := ih (nodeStep maxRecLn table key skip_subkey h node done records tr).1
          (nodeStep maxRecLn table key skip_subkey h node done records tr).2.1
          (nodeStep maxRecLn table key skip_subkey h node done records tr).2.2
        omega

theorem fetchBody_zero (maxRecLn : Nat) (table : LdbTable) (key : List Nat)
    (skip_subkey : Bool) (ha hb : Handler) :
    ∀ (chain : List (List Nat)) (done : Bool) (records : Nat) (tr : List Invocation),
    (fetchBody maxRecLn table key skip_subkey ha chain done records tr).1 = records →
    fetchBody maxRecLn table key skip_subkey hb chain done records tr = (records, tr) := by
  intro chain
  induction chain with
  | nil => intro done records tr _; rfl
  | cons node rest ih =>
    intro done records tr hz
    rw [fetchBody_cons] at hz ⊢
    by_cases hbreak : node.length = 0 ∧ rest = []
    · rw [if_pos hbreak]
    · rw [if_neg hbreak] at hz ⊢
      have hs1 : (nodeStep maxRecLn table key skip_subkey ha node done records tr).2.1 = records := by
        by_cases hc1 : rest.isEmpty ∨ (nodeStep maxRecLn table key skip_subkey ha node done records tr).1 = true
        · rw [if_pos hc1] at hz
          exact hz
        · rw [if_neg hc1] at hz
          have hm1 := fetchBody_mono maxRecLn table key skip_subkey ha rest
            (nodeStep maxRecLn table key skip_subkey ha node done records tr).1
            (nodeStep maxRecLn table key skip_subkey ha node done records tr).2.1
            (nodeStep maxRecLn table key skip_subkey ha node done records tr).2.2
          have hm2 := nodeStep_mono maxRecLn table key skip_subkey ha node done records tr
          omega
      have hq1 := nodeStep_zero maxRecLn table key skip_subkey ha ha node done records tr hs1
      have hq2 := nodeStep_zero maxRecLn table key skip_subkey ha hb node done records tr hs1
      have e1a : (nodeStep maxRecLn table key skip_subkey ha node done records tr).1 = done := by
        rw [hq1]
      have e1b : (nodeStep maxRecLn table key skip_subkey ha node done records tr).2.1 = records := hs1
      have e1c : (nodeStep maxRecLn table key skip_subkey ha node done records tr).2.2 = tr := by
        rw [hq1]
      have e2a : (nodeStep maxRecLn table key skip_subkey hb node done records tr).1 = done := by
        rw [hq2]
      have e2b : (nodeStep maxRecLn table key skip_subkey hb node done records tr).2.1 = records := by
        rw [hq2]
      have e2c : (nodeStep maxRecLn table key skip_subkey hb node done records tr).2.2 = tr := by
        rw [hq2]
      rw [e1a, e1b, e1c] at hz
      rw [e2a, e2b, e2c]
      by_cases hd : rest.isEmpty ∨ done = true
      · rw [if_pos hd]
      · rw [if_neg hd] at hz ⊢
        exact ih done records tr hz

/-! ### Behaviour under an always-stop handler -/

theorem recordLoop_stop (maxRecLn : Nat) (h : Handler) (key subkey : List Nat)
    (sl : Nat) (buf : List Nat) (dstart ds : Nat) (htrue : ∀ inv, h inv = true) :
    ∀ (dptr : Nat) (done : Bool) (records : Nat) (tr : List Invocation),
    (recordLoop maxRecLn h key subkey sl buf dstart ds dptr done records tr).1
      = if datasetHits maxRecLn buf dstart ds dptr = 0 then done else true := by
  intro dptr done records tr
  induction dptr, done, records, tr using recordLoop.induct maxRecLn h key subkey sl buf dstart ds with
  | case1 dptr done records tr hlt hsz ih =>
    rw [recordLoop_pos hlt, if_pos hsz, datasetHits_pos hlt, if_pos hsz, ih,
      htrue (recInv key subkey sl buf dstart dptr records)]
    have hne : ¬ (1 + datasetHits maxRecLn buf dstart ds
        (dptr + 2 + uint16_read buf (dstart + dptr)) = 0) := by omega
    rw [if_neg hne]
    split <;> rfl
  | case2 dptr done records tr hlt hsz ih =>
    rw [recordLoop_pos hlt, if_neg hsz, datasetHits_pos hlt, if_neg hsz]
    exact ih
  | case3 dptr done records tr hlt =>
    rw [recordLoop_neg hlt, datasetHits_neg hlt, if_pos rfl]

theorem groupLoop_stop (maxRecLn : Nat) (h : Handler) (key : List Nat)
    (skip_subkey : Bool) (sl : Nat) (buf : List Nat) (node_size : Nat)
    (htrue : ∀ inv, h inv = true) :
    ∀ (node_ptr : Nat) (done : Bool) (records : Nat) (tr : List Invocation),
    done = false →
    (groupLoop maxRecLn h key skip_subkey sl buf node_size node_ptr done records tr).2.1
        = records + stopScanGroups maxRecLn key skip_subkey sl buf node_size node_ptr
    ∧ (groupLoop maxRecLn h key skip_subkey sl buf node_size node_ptr done records tr).1
        = (if stopScanGroups maxRecLn key skip_subkey sl buf node_size node_ptr = 0
           then false else true) := by
  intro node_ptr done records tr
  induction node_ptr, done, records, tr using groupLoop.induct maxRecLn h key skip_subkey sl buf node_size with
  | case1 node_ptr done records tr hlt hm p ih =>
    obtain ⟨h1, h2⟩ := hlt
    subst h2
    intro _
    have hp : p = recordLoop maxRecLn h key ((buf.drop node_ptr).take sl) sl buf
        (node_ptr + sl + 2) (uint16_read buf (node_ptr + sl)) 0 false records tr := rfl
    rw [hp] at ih
    have hr := recordLoop_records maxRecLn h key ((buf.drop node_ptr).take sl) sl buf
      (node_ptr + sl + 2) (uint16_read buf (node_ptr + sl)) 0 false records tr
    have hs := recordLoop_stop maxRecLn h key ((buf.drop node_ptr).take sl) sl buf
      (node_ptr + sl + 2) (uint16_read buf (node_ptr + sl)) htrue 0 false records tr
    by_cases hz : datasetHits maxRecLn buf (node_ptr + sl + 2) (uint16_read buf (node_ptr + sl)) 0 = 0
    · have hpure := recordLoop_pure maxRecLn h key ((buf.drop node_ptr).take sl) sl buf
        (node_ptr + sl + 2) (uint16_read buf (node_ptr + sl)) 0 false records tr hz
      rw [hpure] at ih
      rw [groupLoop_pos h1, if_pos hm, hpure,
        stopScanGroups_pos h1, if_pos hm, if_pos hz]
      exact ih rfl
    · rw [if_neg hz] at hs
      rw [groupLoop_pos h1, if_pos hm, hs, groupLoop_done,
        stopScanGroups_pos h1, if_pos hm, if_neg hz]
      constructor
      · exact hr
      · rw [if_neg (by omega)]
  | case2 node_ptr done records tr hlt hm ih =>
    obtain ⟨h1, h2⟩ := hlt
    subst h2
    intro _
    rw [groupLoop_pos h1, if_neg hm, stopScanGroups_pos h1, if_neg hm]
    exact ih rfl
  | case3 node_ptr done records tr hlt =>
    intro hdone
    subst hdone
    have hnp : ¬ node_ptr < node_size := by tauto
    rw [groupLoop_neg hlt, stopScanGroups_neg hnp]
    constructor
    · show records = records + 0
      omega
    · rw [if_pos rfl]

theorem nodeStep_stop (maxRecLn : Nat) (table : LdbTable) (key : List Nat)
    (skip_subkey : Bool) (h : Handler) (node : List Nat) (records : Nat)
    (tr : List Invocation) (htrue : ∀ inv, h inv = true) :
    (nodeStep maxRecLn table key skip_subkey h node false records tr).2.1
        = records + nodeStopCount maxRecLn table key skip_subkey node
    ∧ (nodeStep maxRecLn table key skip_subkey h node false records tr).1
        = (if nodeStopCount maxRecLn table key skip_subkey node = 0
           then false else true) := by
  unfold nodeStep nodeStopCount
  split
  · constructor
    · rfl
    · rw [htrue (fixedInv key node records), if_neg (by omega)]
  · split
    · exact groupLoop_stop maxRecLn h key skip_subkey (table.key_ln - 4) node
        node.length htrue 0 false records tr rfl
    · constructor
      · show records = records + 0
        omega
      · rw [if_pos rfl]

theorem stopScanChain_cons (maxRecLn : Nat) (table : LdbTable) (key : List Nat)
    (skip_subkey : Bool) (node : List Nat) (rest : List (List Nat)) :
    stopScanChain maxRecLn table key skip_subkey (node :: rest)
      = if node.length = 0 ∧ rest = [] then 0
        else
          if nodeStopCount maxRecLn table key skip_subkey node = 0 ∧ rest ≠ [] then
            stopScanChain maxRecLn table key skip_subkey rest
          else nodeStopCount maxRecLn table key skip_subkey node := rfl

theorem fetchBody_stop (maxRecLn : Nat) (table : LdbTable) (key : List Nat)
    (skip_subkey : Bool) (h : Handler) (htrue : ∀ inv, h inv = true) :
    ∀ (chain : List (List Nat)) (records : Nat) (tr : List Invocation),
    (fetchBody maxRecLn table key skip_subkey h chain false records tr).1
      = records + stopScanChain maxRecLn table key skip_subkey chain := by
  intro chain
  induction chain with
  | nil =>
    intro records tr
    show records = records + stopScanChain maxRecLn table key skip_subkey []
    show records = records + 0
    omega
  | cons node rest ih =>
    intro records tr
    rw [fetchBody_cons, stopScanChain_cons]
    by_cases hbreak : node.length = 0 ∧ rest = []
    · rw [if_pos hbreak, if_pos hbreak]
      show records = records + 0
      omega
    · rw [if_neg hbreak, if_neg hbreak]
      obtain ⟨e1, e2⟩ := nodeStep_stop maxRecLn table key skip_subkey h node records tr htrue
      by_cases hc : nodeStopCount maxRecLn table key skip_subkey node = 0
      · rw [if_pos hc] at e2
        by_cases hrest : rest.isEmpty
        · rw [if_pos (Or.inl hrest)]
          have hre : rest = [] := by
            cases rest with
            | nil => rfl
            | cons a l => simp at hrest
          rw [if_neg (by tauto)]
          omega
        · have hre : rest ≠ [] := by
            cases rest with
            | nil => simp at hrest
            | cons a l => simp
          simp only [e1, e2]
          rw [if_neg (by simp [hrest]), if_pos ⟨hc, hre⟩, hc]
          have hih := ih (records + 0)
            (nodeStep maxRecLn table key skip_subkey h node false records tr).2.2
          omega
      · rw [if_neg hc] at e2
        rw [if_pos (Or.inr e2), if_neg (by tauto)]
        exact e1

/-! ### Claim C6 -/

/-- C6: one full step of the dataset-group walk.  With subkey filtering
skipped or a zero subkey length the group matches unconditionally and its
records are handed to the record loop; with filtering enabled and a nonzero
subkey length the records are delivered exactly when the group's subkey
bytes equal the key bytes after the 4-byte primary key, and a non-matching
group contributes nothing; in every case the cursor advances past the
subkey, the 2-byte size prefix and the full dataset
(`node_ptr + sl + 2 + dataset_size`) before the next group is read. -/
theorem subkey_filtering_correct (maxRecLn : Nat) (h : Handler) (key : List Nat)
    (skip_subkey : Bool) (sl : Nat) (buf : List Nat) (node_size node_ptr : Nat)
    (records : Nat) (tr : List Invocation) (hlt : node_ptr < node_size) :
    ((skip_subkey = true ∨ sl = 0) →
      groupLoop maxRecLn h key skip_subkey sl buf node_size node_ptr false records tr
        = groupLoop maxRecLn h key skip_subkey sl buf node_size
            (node_ptr + sl + 2 + uint16_read buf (node_ptr + sl))
            (recordLoop maxRecLn h key ((buf.drop node_ptr).take sl) sl buf
              (node_ptr + sl + 2) (uint16_read buf (node_ptr + sl)) 0 false records tr).1
            (recordLoop maxRecLn h key ((buf.drop node_ptr).take sl) sl buf
              (node_ptr + sl + 2) (uint16_read buf (node_ptr + sl)) 0 false records tr).2.1
            (recordLoop maxRecLn h key ((buf.drop node_ptr).take sl) sl buf
              (node_ptr + sl + 2) (uint16_read buf (node_ptr + sl)) 0 false records tr).2.2)
    ∧ (skip_subkey = false → sl ≠ 0 →
        (buf.drop node_ptr).take sl = (key.drop 4).take sl →
      groupLoop maxRecLn h key skip_subkey sl buf node_size node_ptr false records tr
        = groupLoop maxRecLn h key skip_subkey sl buf node_size
            (node_ptr + sl + 2 + uint16_read buf (node_ptr + sl))
            (recordLoop maxRecLn h key ((buf.drop node_ptr).take sl) sl buf
              (node_ptr + sl + 2) (uint16_read buf (node_ptr + sl)) 0 false records tr).1
            (recordLoop maxRecLn h key ((buf.drop node_ptr).take sl) sl buf
              (node_ptr + sl + 2) (uint16_read buf (node_ptr + sl)) 0 false records tr).2.1
            (recordLoop maxRecLn h key ((buf.drop node_ptr).take sl) sl buf
              (node_ptr + sl + 2) (uint16_read buf (node_ptr + sl)) 0 false records tr).2.2)
    ∧ (skip_subkey = false → sl ≠ 0 →
        (buf.drop node_ptr).take sl ≠ (key.drop 4).take sl →
      groupLoop maxRecLn h key skip_subkey sl buf node_size node_ptr false records tr
        = groupLoop maxRecLn h key skip_subkey sl buf node_size
            (node_ptr + sl + 2 + uint16_read buf (node_ptr + sl)) false records tr) := by
  refine ⟨?_, ?_, ?_⟩
  · intro hcase
    have hm : groupMatched skip_subkey sl key buf node_ptr = true := by
      unfold groupMatched
      rcases hcase with hc | hc
      · rw [if_neg (by simp [hc])]
      · rw [if_neg (by simp [hc])]
    rw [groupLoop_pos hlt, if_pos hm]
  · intro hskip hsl heq
    have hm : groupMatched skip_subkey sl key buf node_ptr = true := by
      unfold groupMatched
      rw [if_pos ⟨hskip, hsl⟩]
      simp [heq]
    rw [groupLoop_pos hlt, if_pos hm]
  · intro hskip hsl hne
    have hm : ¬ groupMatched skip_subkey sl key buf node_ptr = true := by
      unfold groupMatched
      rw [if_pos ⟨hskip, hsl⟩]
      simp [hne]
    rw [groupLoop_pos hlt, if_neg hm]

/-- Witness for C6, non-matching case: the first group of the node carries
subkey byte 7 while the key's subkey byte is 9, so with filtering enabled
the group is skipped and the cursor moves from 0 to `0 + 1 + 2 + 3 = 6`,
the start of the second group, with the state untouched. -/
theorem subkey_filtering_witness :
    (0 : Nat) < 12
    ∧ (([7, 0, 3, 0, 1, 200, 9, 0, 3, 0, 1, 201] : List Nat).drop 0).take 1
        ≠ (([1, 2, 3, 4, 9] : List Nat).drop 4).take 1
    ∧ groupLoop 100 (fun _ => false) [1, 2, 3, 4, 9] false 1
        [7, 0, 3, 0, 1, 200, 9, 0, 3, 0, 1, 201] 12 0 false 0 []
      = groupLoop 100 (fun _ => false) [1, 2, 3, 4, 9] false 1
        [7, 0, 3, 0, 1, 200, 9, 0, 3, 0, 1, 201] 12
        (0 + 1 + 2 + uint16_read [7, 0, 3, 0, 1, 200, 9, 0, 3, 0, 1, 201] (0 + 1)) false 0 [] :=
  ⟨by decide, by decide,
   (subkey_filtering_correct 100 (fun _ => false) [1, 2, 3, 4, 9] false 1
     [7, 0, 3, 0, 1, 200, 9, 0, 3, 0, 1, 201] 12 0 0 [] (by decide)).2.2
     rfl (by decide) (by decide)⟩

/-! ### Buffer-congruence: a valid node is decoded using only its first
`node_size` bytes -/

theorem getD_take_eq {buf buf2 : List Nat} {ns : Nat}
    (hb : buf.take ns = buf2.take ns) {i : Nat} (hi : i < ns) :
    buf.getD i 0 = buf2.getD i 0 := by
  have e1 := @List.getElem?_take_of_lt Nat buf ns i hi
  have e2 := @List.getElem?_take_of_lt Nat buf2 ns i hi
  rw [List.getD_eq_getElem?_getD, List.getD_eq_getElem?_getD, ← e1, ← e2, hb]

theorem uint16_take_eq {buf buf2 : List Nat} {ns : Nat}
    (hb : buf.take ns = buf2.take ns) {i : Nat} (hi : i + 2 ≤ ns) :
    uint16_read buf i = uint16_read buf2 i := by
  unfold uint16_read
  rw [getD_take_eq hb (by omega), getD_take_eq hb (by omega)]

theorem seg_take_eq {buf buf2 : List Nat} {ns : Nat}
    (hb : buf.take ns = buf2.take ns) {a b : Nat} (hab : a + b ≤ ns) :
    (buf.drop a).take b = (buf2.drop a).take b := by
  calc (buf.drop a).take b
      = (buf.take (a + b)).drop a := List.take_drop a b buf
    _ = ((buf.take ns).take (a + b)).drop a := by
        rw [List.take_take, Nat.min_eq_left hab]
    _ = ((buf2.take ns).take (a + b)).drop a := by rw [hb]
    _ = (buf2.take (a + b)).drop a := by
        rw [List.take_take, Nat.min_eq_left hab]
    _ = (buf2.drop a).take b := (List.take_drop a b buf2).symm

theorem validRecords_inv {buf : List Nat} {dstart ds dptr : Nat}
    (hv : validRecords buf dstart ds dptr = true) (hlt : dptr < ds) :
    dptr + 2 ≤ ds ∧ dptr + 2 + uint16_read buf (dstart + dptr) ≤ ds
    ∧ validRecords buf dstart ds (dptr + 2 + uint16_read buf (dstart + dptr)) = true := by
  rw [validRecords_pos hlt] at hv
  by_cases hc : dptr + 2 ≤ ds ∧ dptr + 2 + uint16_read buf (dstart + dptr) ≤ ds
  · rw [if_pos hc] at hv
    exact ⟨hc.1, hc.2, hv⟩
  · rw [if_neg hc] at hv
    simp at hv

theorem validGroups_inv {buf : List Nat} {node_size sl ptr : Nat}
    (hv : validGroups buf node_size sl ptr = true) (hlt : ptr < node_size) :
    ptr + sl + 2 ≤ node_size
    ∧ ptr + sl + 2 + uint16_read buf (ptr + sl) ≤ node_size
    ∧ validRecords buf (ptr + sl + 2) (uint16_read buf (ptr + sl)) 0 = true
    ∧ validGroups buf node_size sl (ptr + sl + 2 + uint16_read buf (ptr + sl)) = true := by
  rw [validGroups_pos hlt] at hv
  by_cases hc : ptr + sl + 2 ≤ node_size
      ∧ ptr + sl + 2 + uint16_read buf (ptr + sl) ≤ node_size
  · rw [if_pos hc] at hv
    rw [Bool.and_eq_true] at hv
    exact ⟨hc.1, hc.2, hv.1, hv.2⟩
  · rw [if_neg hc] at hv
    simp at hv

theorem recordLoop_congr (maxRecLn : Nat) (h : Handler) (key subkey : List Nat)
    (sl : Nat) (buf buf2 : List Nat) (ns : Nat)
    (hb : buf.take ns = buf2.take ns) (dstart ds : Nat) (hds : dstart + ds ≤ ns) :
    ∀ (fuel dptr : Nat) (done : Bool) (records : Nat) (tr : List Invocation),
    ds - dptr ≤ fuel →
    validRecords buf dstart ds dptr = true →
    recordLoop maxRecLn h key subkey sl buf dstart ds dptr done records tr
      = recordLoop maxRecLn h key subkey sl buf2 dstart ds dptr done records tr := by
  intro fuel
  induction fuel with
  | zero =>
    intro dptr done records tr hle hv
    have hlt : ¬ dptr < ds := by omega
    rw [recordLoop_neg hlt, recordLoop_neg hlt]
  | succ n ihn =>
    intro dptr done records tr hle hv
    by_cases hlt : dptr < ds
    · obtain ⟨h2, h3, hv2⟩ := validRecords_inv hv hlt
      have hu : uint16_read buf2 (dstart + dptr) = uint16_read buf (dstart + dptr) :=
        (uint16_take_eq hb (by omega)).symm
      rw [recordLoop_pos hlt, recordLoop_pos hlt, hu]
      by_cases hsz : uint16_read buf (dstart + dptr) + 32 < maxRecLn
      · rw [if_pos hsz, if_pos hsz]
        have hdata2 : (buf2.drop (dstart + dptr + 2)).take (uint16_read buf (dstart + dptr))
            = (buf.drop (dstart + dptr + 2)).take (uint16_read buf (dstart + dptr)) :=
          (seg_take_eq hb (by omega)).symm
        have hinv : recInv key subkey sl buf2 dstart dptr records
            = recInv key subkey sl buf dstart dptr records := by
          unfold recInv
          rw [hu, hdata2]
        rw [hinv]
        exact ihn (dptr + 2 + uint16_read buf (dstart + dptr))
          (h (recInv key subkey sl buf dstart dptr records)) (records + 1)
          (tr ++ [recInv key subkey sl buf dstart dptr records]) (by omega) hv2
      · rw [if_neg hsz, if_neg hsz]
        exact ihn (dptr + 2 + uint16_read buf (dstart + dptr)) done records tr
          (by omega) hv2
    · rw [recordLoop_neg hlt, recordLoop_neg hlt]

theorem groupLoop_congr (maxRecLn : Nat) (h : Handler) (key : List Nat)
    (skip_subkey : Bool) (sl : Nat) (buf buf2 : List Nat) (node_size : Nat)
    (hb : buf.take node_size = buf2.take node_size) :
    ∀ (fuel node_ptr : Nat) (done : Bool) (records : Nat) (tr : List Invocation),
    node_size - node_ptr ≤ fuel →
    validGroups buf node_size sl node_ptr = true →
    groupLoop maxRecLn h key skip_subkey sl buf node_size node_ptr done records tr
      = groupLoop maxRecLn h key skip_subkey sl buf2 node_size node_ptr done records tr := by
  intro fuel
  induction fuel with
  | zero =>
    intro node_ptr done records tr hle hv
    have hlt : ¬ node_ptr < node_size := by omega
    rw [groupLoop_neg (by tauto), groupLoop_neg (by tauto)]
  | succ n ihn =>
    intro node_ptr done records tr hle hv
    by_cases hguard : node_ptr < node_size ∧ done = false
    · obtain ⟨hlt, hdone⟩ := hguard
      subst hdone
      obtain ⟨hsub, hfit, hvr, hvg⟩ := validGroups_inv hv hlt
      have hu : uint16_read buf2 (node_ptr + sl) = uint16_read buf (node_ptr + sl) :=
        (uint16_take_eq hb (by omega)).symm
      have hsk : (buf2.drop node_ptr).take sl = (buf.drop node_ptr).take sl :=
        (seg_take_eq hb (by omega)).symm
      have hm : groupMatched skip_subkey sl key buf2 node_ptr
          = groupMatched skip_subkey sl key buf node_ptr := by
        unfold groupMatched
        rw [hsk]
      rw [groupLoop_pos hlt, groupLoop_pos hlt, hu, hm, hsk]
      have hrl : recordLoop maxRecLn h key ((buf.drop node_ptr).take sl) sl buf
          (node_ptr + sl + 2) (uint16_read buf (node_ptr + sl)) 0 false records tr
          = recordLoop maxRecLn h key ((buf.drop node_ptr).take sl) sl buf2
          (node_ptr + sl + 2) (uint16_read buf (node_ptr + sl)) 0 false records tr :=
        recordLoop_congr maxRecLn h key ((buf.drop node_ptr).take sl) sl buf buf2
          node_size hb (node_ptr + sl + 2) (uint16_read buf (node_ptr + sl)) hfit
          (uint16_read buf (node_ptr + sl)) 0 false records tr (Nat.le_refl _) hvr
      by_cases hmb : groupMatched skip_subkey sl key buf node_ptr = true
      · rw [if_pos hmb, if_pos hmb, hrl]
        exact ihn (node_ptr + sl + 2 + uint16_read buf (node_ptr + sl)) _ _ _
          (by omega) hvg
      · rw [if_neg hmb, if_neg hmb]
        exact ihn (node_ptr + sl + 2 + uint16_read buf (node_ptr + sl)) false records tr
          (by omega) hvg
    · rw [groupLoop_neg hguard, groupLoop_neg hguard]

/-! ### Claim C5 -/

/-- C5: for a node accepted by the validator, the group-and-record walk of
`ldb_fetch_recordset` is determined entirely by the first `node_size` bytes
of the buffer: any two buffers that agree on those bytes decode to exactly
the same flag, count and invocation trace.  This is the semantic statement
that decoding a valid node never reads past the node's stated bounds. -/
theorem valid_node_reads_in_bounds (maxRecLn : Nat) (h : Handler)
    (key : List Nat) (skip_subkey : Bool) (sl : Nat) (buf buf2 : List Nat)
    (node_size : Nat) (done : Bool) (records : Nat) (tr : List Invocation)
    (hb : buf.take node_size = buf2.take node_size)
    (hv : ldb_validate_node buf node_size sl = true) :
    groupLoop maxRecLn h key skip_subkey sl buf node_size 0 done records tr
      = groupLoop maxRecLn h key skip_subkey sl buf2 node_size 0 done records tr :=
  groupLoop_congr maxRecLn h key skip_subkey sl buf buf2 node_size hb
    node_size 0 done records tr (Nat.le_refl _) hv

/-- Witness for C5: the valid 8-byte node decodes identically whether or
not two garbage bytes follow it in the buffer. -/
theorem valid_node_reads_in_bounds_witness :
    ([0, 6, 0, 1, 7, 0, 1, 9] : List Nat).take 8
      = ([0, 6, 0, 1, 7, 0, 1, 9, 99, 100] : List Nat).take 8
    ∧ ldb_validate_node [0, 6, 0, 1, 7, 0, 1, 9] 8 0 = true
    ∧ groupLoop 100 (fun _ => false) [0, 0, 0, 0] false 0
        [0, 6, 0, 1, 7, 0, 1, 9] 8 0 false 0 []
      = groupLoop 100 (fun _ => false) [0, 0, 0, 0] false 0
        [0, 6, 0, 1, 7, 0, 1, 9, 99, 100] 8 0 false 0 [] :=
  ⟨by decide,
   by simp [ldb_validate_node, validGroups, validRecords, uint16_read],
   valid_node_reads_in_bounds 100 (fun _ => false) [0, 0, 0, 0] false 0
     [0, 6, 0, 1, 7, 0, 1, 9] [0, 6, 0, 1, 7, 0, 1, 9, 99, 100] 8 false 0 []
     (by decide)
     (by simp [ldb_validate_node, validGroups, validRecords, uint16_read])⟩

/-! ### Claim C1 (amended) -/

/-- C1 amended: a handler that returns the stop signal on every invocation
(in particular on its first call) makes the decoder stop at the first
dataset group — or fixed-length node — that yields an invocation: no later
dataset groups or chained nodes are visited, and the returned count is the
number of size-passing records of that single group (1 for a fixed-length
node), hence 1 exactly when that group holds one size-passing record;
records following in the same dataset group are still delivered and
counted before the stop takes effect at the group boundary. -/
theorem stop_handler_count_eq_stopScanChain (maxRecLn : Nat) (table : LdbTable)
    (key : List Nat) (skip_subkey : Bool) (h : Handler)
    (chain : List (List Nat)) (htrue : ∀ inv, h inv = true) :
    (ldb_fetch_recordset maxRecLn table key skip_subkey h chain).1
      = stopScanChain maxRecLn table key skip_subkey chain := by
  rw [ldb_fetch_recordset]
  have := fetchBody_stop maxRecLn table key skip_subkey h htrue chain 0 []
  omega

/-- Witness for amended C1: a two-node chain whose first node holds one
single-record dataset; the always-stop handler receives exactly that
record and the second node is never visited. -/
theorem stop_handler_count_witness :
    (ldb_fetch_recordset 100 ⟨4, 0⟩ [0, 0, 0, 0] false (fun _ => true)
        [[0, 3, 0, 1, 7], [0, 3, 0, 1, 8]]).1
      = stopScanChain 100 ⟨4, 0⟩ [0, 0, 0, 0] false [[0, 3, 0, 1, 7], [0, 3, 0, 1, 8]] :=
  stop_handler_count_eq_stopScanChain 100 ⟨4, 0⟩ [0, 0, 0, 0] false (fun _ => true)
    [[0, 3, 0, 1, 7], [0, 3, 0, 1, 8]] (fun _ => rfl)

/-! ### Claim C7 -/

/-- C7: `ldb_key_exists` returns true exactly when a full decode of the key
(with subkey filtering not skipped, as `ldb_key_exists` performs it) would
invoke the handler at least once — for an arbitrary handler `h`, since
whether any invocation happens does not depend on the handler; moreover its
own handler signals stop unconditionally, ignoring all arguments. -/
theorem key_exists_iff_count_pos (maxRecLn : Nat) (table : LdbTable)
    (key : List Nat) (chain : List (List Nat)) (h : Handler) :
    (∀ inv, ldb_key_exists_handler inv = true)
    ∧ (ldb_key_exists maxRecLn table key chain = true
        ↔ 0 < (ldb_fetch_recordset maxRecLn table key false h chain).1) := by
  refine ⟨fun _ => rfl, ?_⟩
  rw [ldb_key_exists, decide_eq_true_eq]
  constructor
  · intro hpos
    by_contra hneg
    have hz : (fetchBody maxRecLn table key false h chain false 0 []).1 = 0 := by
      rw [ldb_fetch_recordset] at hneg
      omega
    have hzz := fetchBody_zero maxRecLn table key false h ldb_key_exists_handler
      chain false 0 [] hz
    rw [ldb_fetch_recordset, hzz] at hpos
    simp at hpos
  · intro hpos
    by_contra hneg
    have hz : (fetchBody maxRecLn table key false ldb_key_exists_handler chain false 0 []).1 = 0 := by
      rw [ldb_fetch_recordset] at hneg
      omega
    have hzz := fetchBody_zero maxRecLn table key false ldb_key_exists_handler h
      chain false 0 [] hz
    rw [ldb_fetch_recordset, hzz] at hpos
    simp at hpos

/-! ### Claim C2 -/

/-- C2: for every decode call, the value returned by `ldb_fetch_recordset`
equals the exact number of times the handler was invoked during that call
(the length of the invocation trace), counting rejected invocations and not
counting records skipped without an invocation. -/
theorem fetch_count_eq_invocations (maxRecLn : Nat) (table : LdbTable)
    (key : List Nat) (skip_subkey : Bool) (h : Handler) (chain : List (List Nat)) :
    (ldb_fetch_recordset maxRecLn table key skip_subkey h chain).1
      = ((ldb_fetch_recordset maxRecLn table key skip_subkey h chain).2).length := by
  have hl := fetchBody_len maxRecLn table key skip_subkey h chain false 0 []
  simpa [ldb_fetch_recordset] using hl.symm

/-! ### Claim C3 -/

/-- C3: a record whose length prefix satisfies
`record_length + 32 ≥ maxRecLn` is skipped without invoking the handler and
without counting it, and the cursor still advances by `2 + record_length`
(past the length prefix and the payload), so decoding continues with the
next record of the dataset at its proper offset, with identical results. -/
theorem oversized_record_skipped (maxRecLn : Nat) (h : Handler)
    (key subkey : List Nat) (sl : Nat) (buf : List Nat) (dstart ds dptr : Nat)
    (done : Bool) (records : Nat) (tr : List Invocation) (hlt : dptr < ds)
    (hbig : maxRecLn ≤ uint16_read buf (dstart + dptr) + 32) :
    recordLoop maxRecLn h key subkey sl buf dstart ds dptr done records tr
      = recordLoop maxRecLn h key subkey sl buf dstart ds
          (dptr + 2 + uint16_read buf (dstart + dptr)) done records tr := by
  rw [recordLoop_pos hlt, if_neg (by omega)]

/-- Witness for C3: in the dataset of size 13 starting at offset 2 of the
buffer, the first record has length 8 and `8 + 32 ≥ 40`, so with a maximum
record length of 40 it is dropped and decoding proceeds at offset 10. -/
theorem oversized_record_skipped_witness :
    (0 : Nat) < 13
    ∧ (40 : Nat) ≤ uint16_read [0, 13, 0, 8, 1, 2, 3, 4, 5, 6, 7, 8, 0, 1, 5] (2 + 0) + 32
    ∧ recordLoop 40 (fun _ => false) [0, 0, 0, 0] [] 0
        [0, 13, 0, 8, 1, 2, 3, 4, 5, 6, 7, 8, 0, 1, 5] 2 13 0 false 0 []
      = recordLoop 40 (fun _ => false) [0, 0, 0, 0] [] 0
        [0, 13, 0, 8, 1, 2, 3, 4, 5, 6, 7, 8, 0, 1, 5] 2 13
        (0 + 2 + uint16_read [0, 13, 0, 8, 1, 2, 3, 4, 5, 6, 7, 8, 0, 1, 5] (2 + 0)) false 0 [] :=
  ⟨by decide, by decide,
   oversized_record_skipped 40 (fun _ => false) [0, 0, 0, 0] [] 0
     [0, 13, 0, 8, 1, 2, 3, 4, 5, 6, 7, 8, 0, 1, 5] 2 13 0 false 0 []
     (by decide) (by decide)⟩

/-! ### Claim C4 -/

/-- C4: a variable-length node rejected by the node validator contributes
nothing: the handler is not invoked for any of its contents, the record
counter and trace are unchanged, no error is signalled (the result is an
ordinary count), and decoding proceeds with the next chained node exactly
when the chain cursor is nonzero (`rest` nonempty). -/
theorem corrupt_node_skipped (maxRecLn : Nat) (table : LdbTable)
    (key : List Nat) (skip_subkey : Bool) (h : Handler) (node : List Nat)
    (rest : List (List Nat)) (records : Nat) (tr : List Invocation)
    (hrec : table.rec_ln = 0)
    (hval : ldb_validate_node node node.length (table.key_ln - 4) = false) :
    fetchBody maxRecLn table key skip_subkey h (node :: rest) false records tr
      = if rest.isEmpty then (records, tr)
        else fetchBody maxRecLn table key skip_subkey h rest false records tr := by
  have hne : node.length ≠ 0 := by
    intro h0
    rw [ldb_validate_node, h0, validGroups_neg (by omega)] at hval
    simp at hval
  have hstep : nodeStep maxRecLn table key skip_subkey h node false records tr
      = (false, records, tr) := by
    unfold nodeStep
    rw [if_neg (by simp [hrec]), if_neg (by simp [hval])]
  rw [fetchBody_cons, if_neg (by tauto), hstep]
  by_cases hr : rest.isEmpty
  · rw [if_pos (Or.inl hr), if_pos hr]
  · rw [if_neg (by simp [hr]), if_neg hr]

/-- Witness for C4: the node `[0, 5]` declares a dataset of size 5 inside a
node of size 2, so the validator rejects it; with a valid chained node
following, decoding continues with that node as if the corrupt one were
absent. -/
theorem corrupt_node_skipped_witness :
    ldb_validate_node [0, 5] 2 0 = false
    ∧ fetchBody 100 ⟨4, 0⟩ [0, 0, 0, 0] false (fun _ => true) [[0, 5], [0, 3, 0, 1, 8]] false 0 []
      = fetchBody 100 ⟨4, 0⟩ [0, 0, 0, 0] false (fun _ => true) [[0, 3, 0, 1, 8]] false 0 [] := by
  constructor
  · simp [ldb_validate_node, validGroups, validRecords, uint16_read]
  · have hc := corrupt_node_skipped 100 ⟨4, 0⟩ [0, 0, 0, 0] false (fun _ => true)
      [0, 5] [[0, 3, 0, 1, 8]] 0 [] rfl
      (by simp [ldb_validate_node, validGroups, validRecords, uint16_read])
    simpa using hc

/-! ### Claim C8 -/

/-- C8: for a fixed-length table (`rec_ln > 0`) and a single-node chain
whose node consists of `M ≥ 1` concatenated `rec_ln`-byte records, the
decoder invokes the handler exactly once, passing the entire node buffer
and its size with null subkey arguments and iteration 0, and returns
count 1 — fixed-length nodes are never split into individual records. -/
theorem fixed_length_single_invocation (maxRecLn : Nat) (table : LdbTable)
    (key : List Nat) (skip_subkey : Bool) (h : Handler) (node : List Nat)
    (M : Nat) (hfix : 0 < table.rec_ln) (hM : 0 < M)
    (hlen : node.length = M * table.rec_ln) :
    ldb_fetch_recordset maxRecLn table key skip_subkey h [node]
      = (1, [fixedInv key node 0]) := by
  have hne : node.length ≠ 0 := by
    rw [hlen]
    have := Nat.mul_pos hM hfix
    omega
  have hstep : nodeStep maxRecLn table key skip_subkey h node false 0 []
      = (h (fixedInv key node 0), 1, [fixedInv key node 0]) := by
    unfold nodeStep
    rw [if_pos (by omega)]
    simp
  rw [ldb_fetch_recordset, fetchBody_cons, if_neg (by tauto), hstep]
  simp

/-- Witness for C8: a table with `rec_ln = 4` and a node of `M = 2`
records (8 bytes) yields exactly one invocation carrying the whole node. -/
theorem fixed_length_single_invocation_witness :
    (0 : Nat) < 4 ∧ (0 : Nat) < 2
    ∧ ([1, 2, 3, 4, 5, 6, 7, 8] : List Nat).length = 2 * 4
    ∧ ldb_fetch_recordset 100 ⟨6, 4⟩ [9, 9, 9, 9, 9, 9] false (fun _ => false)
        [[1, 2, 3, 4, 5, 6, 7, 8]]
      = (1, [fixedInv [9, 9, 9, 9, 9, 9] [1, 2, 3, 4, 5, 6, 7, 8] 0]) :=
  ⟨by decide, by decide, by decide,
   fixed_length_single_invocation 100 ⟨6, 4⟩ [9, 9, 9, 9, 9, 9] false
     (fun _ => false) [1, 2, 3, 4, 5, 6, 7, 8] 2 (by decide) (by decide) (by decide)⟩

/-! ### Claim C1 (counterexample) -/

/-- C1 fails on the code: with the always-stop handler (which certainly
returns the stop signal on its first invocation), a single valid node whose
one matching dataset holds two records of length 1 yields count 2, not 1:
the record loop does not consult the stop flag between the records of one
dataset, so the second record is still delivered and counted. -/
theorem stop_first_call_count_two :
    (ldb_fetch_recordset 100 ⟨4, 0⟩ [0, 0, 0, 0] false (fun _ => true)
        [[0, 6, 0, 1, 7, 0, 1, 9]]).1 = 2 ∧ (2 : Nat) ≠ 1 := by
  constructor
  · simp [ldb_fetch_recordset, fetchBody, nodeStep, ldb_validate_node, validGroups,
      validRecords, groupLoop, recordLoop, groupMatched, uint16_read, recInv]
  · decide

/-! ### Claim C9 -/

theorem dumpFrom_range {α : Type} (ls : Nat → Option α) (mp : List Nat → Bool) :
    ∀ (m k0 : Nat), 256 - k0 = m → k0 ≤ 255 →
    dumpFrom ls mp k0 = (List.range' k0 m).flatMap (dumpShard ls mp) := by
  intro m
  induction m with
  | zero =>
    intro k0 he hle
    omega
  | succ n ihn =>
    intro k0 he hle
    rw [dumpFrom_eq, List.range'_succ, List.flatMap_cons]
    by_cases hk : k0 < 255
    · rw [if_pos hk, ihn (k0 + 1) (by omega) (by omega)]
    · have h255 : k0 = 255 := by omega
      have hn0 : n = 0 := by omega
      subst h255
      subst hn0
      rw [if_neg hk]
      simp

/-- C9: the dump driver terminates after visiting every leading byte value
`k0` from 0 to 255 inclusive exactly once, in ascending order (the do-while
with guard `k0++ < 255` equals the flat enumeration of `List.range 256`);
for each `k0` whose sector loads it visits all 256³ combinations
`(k1, k2, k3)` in nested ascending order and invokes the decoder — with
subkey filtering skipped and the in-memory sector image — exactly for the
keys where the existence map reports possible data, while an empty shard
contributes nothing but the scan still continues with the next `k0`. -/
theorem dump_enumerates_keyspace {α : Type} (ls : Nat → Option α)
    (mp : List Nat → Bool) :
    ldb_dump ls mp = ldb_dump_spec ls mp := by
  rw [ldb_dump, dumpFrom_range ls mp 256 0 rfl (by omega), ← List.range_eq_range']
  rfl

end Ldb
